import Mathlib

/-
Verification of the VSDL Pedersen-commitment engine and server orchestration
(src/implementation/pedersen.js and the Express server in the same repository).

Modelling choices, justified against the source:

* The source performs all curve arithmetic on secp256k1 (`elliptic` library),
  a cyclic group of prime order n generated by the standard generator G
  (CURVE_INFO.n, pedersen.js line 32).  The program only ever uses
  `mul` (scalar multiplication of G and H), `add` (point addition) and `eq`
  (point equality) on points it built itself from G and H.  Since the group is
  cyclic of order n and generated by G, the map `x ↦ G·x` is a bijection from
  Z/n onto the group that turns `add` into `+`, `mul k` into `k * ·` and `eq`
  into `=`.  We therefore represent a curve point by its discrete logarithm
  base G, an element of `ZMod secpN`.  The identity (point at infinity) is 0,
  G is 1, and H = G·hSecret (pedersen.js lines 42-43) is the scalar `hSecret`.
  `hSecret` is SHA-256 of the fixed seed string interpreted as a private key;
  SHA-256 is an external primitive, so `hSecret` is kept as a parameter.

* SHA-256 (node's `crypto`) is external to the repository; it is modelled by
  an abstract parameter `sha256 : String → String` returning the lowercase
  hex digest.  `hashToScalar` (pedersen.js lines 66-70) parses that hex
  digest as a big-endian number and reduces it mod n, which we reproduce
  executably with `hexToNat`.

* `randomScalar()` draws are modelled by an explicit randomness assignment
  `rs : String → Scalar`, keyed by field name (records have distinct keys,
  so this parameterizes exactly the values the RNG hands to `commitRecord`).

* JavaScript `null` is modelled by `Option`: the accumulation loops in
  `commitRecord`, `computeSubsetCommitment` and `recomputeCommitment` start
  from `null` and only ever become a point after the first addend, so an
  empty input yields `none`.  The `math` blocks the source attaches for
  display call `.getX()` on these values and therefore throw a TypeError
  when the value is `null`; the display blocks are otherwise inert and are
  not modelled, but `createToken` surfaces the throw (caught by the route's
  try/catch as a 500) as an `Except.error`.

* JS object field access `obj[k]` on objects built by insertion with
  distinct keys is modelled by `lookupStr` on an association list.
-/

/-- Order of secp256k1 (pedersen.js CURVE_INFO.n, line 32). -/
def secpN : ℕ := 0xFFFFFFFFFFFFFFFFFFFFFFFFFFFFFFFEBAAEDCE6AF48A03BBFD25E8CD0364141

/-- A scalar in Z_q (`BN ... .umod(ec.n)` in the source). -/
abbrev Scalar := ZMod secpN

/-- A curve point, represented by its discrete logarithm base G (see header). -/
abbrev Point := ZMod secpN

/-- The generator G (discrete log 1). -/
def gPoint : Point := 1

/-- The derived generator H = G·hSecret (pedersen.js lines 42-43). -/
def hPoint (hSecret : Scalar) : Point := hSecret

/-- Point addition (elliptic `add`). -/
def pointAdd (p q : Point) : Point := p + q

/-- Scalar multiplication (elliptic `mul`). -/
def pointMul (p : Point) (k : Scalar) : Point := k * p

/-- The group identity (point at infinity). -/
def pointId : Point := 0

/-- Value of one lowercase hex digit, as `BN(_, 16)` reads it. -/
def hexDigitVal (c : Char) : ℕ :=
  if '0' ≤ c ∧ c ≤ '9' then c.toNat - 48
  else if 'a' ≤ c ∧ c ≤ 'f' then c.toNat - 87
  else 0

/-- Big-endian hex string to number, as `new BN(hex, 16)`. -/
def hexToNat (s : String) : ℕ :=
  s.data.foldl (fun acc c => 16 * acc + hexDigitVal c) 0

/-- hashToScalar (pedersen.js lines 66-70): SHA-256 hex digest read as a
number and reduced mod the curve order. -/
def hashToScalar (sha256 : String → String) (data : String) : Scalar :=
  (hexToNat (sha256 data) : ZMod secpN)

/-- The hash input built by commitField (pedersen.js line 96):
the template literal with the two-character separator. -/
def fieldMessage (fieldName value : String) : String :=
  fieldName ++ "||" ++ value

/-- The object returned by commitField (pedersen.js lines 104-128);
the `math` display block is omitted (see header). -/
structure FieldCommitment where
  fieldName : String
  value : String
  commitment : Point
  randomness : Scalar
deriving DecidableEq

/-- commitField (pedersen.js lines 91-129) with the blinding factor passed
explicitly (the source samples `randomScalar()` when it is omitted). -/
def commitField (sha256 : String → String) (hSecret : Scalar)
    (fieldName value : String) (r : Scalar) : FieldCommitment :=
  let message := fieldMessage fieldName value
  let m := hashToScalar sha256 message
  let gm := pointMul gPoint m
  let hr := pointMul (hPoint hSecret) r
  { fieldName := fieldName, value := value,
    commitment := pointAdd gm hr, randomness := r }

/-- JS object lookup `obj[k]` on an insertion-ordered object with distinct
keys, as an association-list lookup. -/
def lookupStr {α : Type} (k : String) : List (String × α) → Option α
  | [] => none
  | e :: rest => if e.1 = k then some e.2 else lookupStr k rest

/-- One step of the null-seeded accumulation pattern
`if (acc === null) acc = p; else acc = acc.add(p);` used by commitRecord,
computeSubsetCommitment and recomputeCommitment. -/
def optAdd (acc : Option Point) (p : Point) : Option Point :=
  match acc with
  | none => some p
  | some q => some (pointAdd q p)

/-- The full null-seeded left-to-right sum of a list of points. -/
def optSum (l : List Point) : Option Point := l.foldl optAdd none

/-- The value returned by commitRecord (pedersen.js lines 162-175); the
`math` display block is omitted, but note that building it dereferences
`recordCommitment`, so the source throws a TypeError when the record is
empty (`recordCommitment` is still null). -/
structure CommitRecordResult where
  recordCommitment : Option Point
  fieldCommitments : List (String × FieldCommitment)
deriving DecidableEq

/-- commitRecord (pedersen.js lines 138-176): per-field commitments with
fresh randomness `rs`, keyed by name, and their running point sum. -/
def commitRecord (sha256 : String → String) (hSecret : Scalar)
    (record : List (String × String)) (rs : String → Scalar) : CommitRecordResult :=
  let fcs := record.map (fun nv => (nv.1, commitField sha256 hSecret nv.1 nv.2 (rs nv.1)))
  { recordCommitment := optSum (fcs.map (fun nf => nf.2.commitment))
    fieldCommitments := fcs }

/-- The accumulation loop of computeSubsetCommitment
(pedersen.js lines 185-194): skip names missing from the map, push present
names onto `included`, accumulate their commitments from a null seed. -/
def subsetGo (fcs : List (String × FieldCommitment)) :
    Option Point → List String → List String → Option Point × List String
  | acc, inc, [] => (acc, inc)
  | acc, inc, n :: rest =>
    match lookupStr n fcs with
    | some fc => subsetGo fcs (optAdd acc fc.commitment) (inc ++ [n]) rest
    | none => subsetGo fcs acc inc rest

/-- computeSubsetCommitment (pedersen.js lines 181-197), returning
`(commitment, included)`; the commitment is `none` (JS null) when no
requested name is present. -/
def computeSubsetCommitment (fcs : List (String × FieldCommitment))
    (fieldNames : List String) : Option Point × List String :=
  subsetGo fcs none [] fieldNames

/-- verifyPartition (pedersen.js lines 210-239): `valid = C_D.eq(C_H.add(C_F))`;
only the `valid` flag is modelled (the rest of the return value is display). -/
def verifyPartition (cD cH cF : Point) : Bool :=
  decide (cD = pointAdd cH cF)

/-- One element of the `openings` list (`visibleFieldsProof` entries in the
delegate route / the `fields` argument of recomputeCommitment).  The source
carries the randomness as fixed-width hex (`serializeBN`) and parses it back
with `new BN(hex, 16)`, a lossless round trip for scalars below n, so we
carry the scalar itself. -/
structure Opening where
  fieldName : String
  value : String
  randomness : Scalar
deriving DecidableEq

/-- The point recomputeCommitment builds for one opening
(pedersen.js lines 249-254). -/
def openingCommit (sha256 : String → String) (hSecret : Scalar) (o : Opening) : Point :=
  pointAdd (pointMul gPoint (hashToScalar sha256 (fieldMessage o.fieldName o.value)))
    (pointMul (hPoint hSecret) o.randomness)

/-- recomputeCommitment (pedersen.js lines 244-271): null-seeded sum of the
recomputed per-opening points (`details` is display only). -/
def recomputeCommitment (sha256 : String → String) (hSecret : Scalar)
    (openings : List Opening) : Option Point :=
  optSum (openings.map (openingCommit sha256 hSecret))

/-- The honest openings the server emits for the visible fields: for each
name with a stored field commitment, `(name, value, randomness)` taken from
commitRecord's output (the delegate route, server lines 564-573). -/
def honestOpenings (fcs : List (String × FieldCommitment)) (names : List String) :
    List Opening :=
  names.filterMap (fun k =>
    (lookupStr k fcs).map (fun fc => ⟨fc.fieldName, fc.value, fc.randomness⟩))

/-- A delegation policy (one entry of POLICIES, server lines 372-394). -/
structure Policy where
  name : String
  description : String
  visibleFields : List String
  hiddenFields : List String
  allowedActions : List String
deriving DecidableEq

/-- Code-unit lexicographic comparison of character lists, the order JS
`Array.prototype.sort()` uses on arrays of strings (compared code point by
code point; identical to code-unit order for the ASCII names here). -/
def charListLe : List Char → List Char → Bool
  | [], _ => true
  | _ :: _, [] => false
  | c :: cs, d :: ds =>
    if c.toNat < d.toNat then true
    else if d.toNat < c.toNat then false
    else charListLe cs ds

/-- The string order JS's default sort comparator induces. -/
def strLe (a b : String) : Prop := charListLe a.data b.data = true

instance strLeDec : DecidableRel strLe :=
  fun a b => instDecidableEqBool (charListLe a.data b.data) true

/-- JS `Array.prototype.sort()` on an array of strings: sorts by the string
order (code-unit lexicographic), in place.  The in-place mutation is
modelled by threading the sorted array through the state explicitly (see
`createToken`). -/
def jsSort (l : List String) : List String :=
  List.insertionSort strLe l

/-- `JSON.stringify` of an array of plain strings (no characters needing
JSON escapes occur in field names). -/
def jsonArray (l : List String) : String :=
  "[" ++ String.intercalate "," (l.map (fun s => "\"" ++ s ++ "\"")) ++ "]"

/-- The canonical JSON string hashed by the token-creation route
(server lines 468-473): the object with the sorted visible and hidden
field-name arrays. -/
def policyJson (vis hid : List String) : String :=
  "\x7b\"visible\":" ++ jsonArray vis ++ ",\"hidden\":" ++ jsonArray hid ++ "\x7d"

/-- The policy hash computed at Issue: SHA-256 hex digest of `policyJson`
over the sorted field-name arrays. -/
def policyHash (sha256 : String → String) (p : Policy) : String :=
  sha256 (policyJson (jsSort p.visibleFields) (jsSort p.hiddenFields))

/-- The effect of the two in-place `.sort()` calls on a policy object. -/
def sortPolicy (p : Policy) : Policy :=
  { p with visibleFields := jsSort p.visibleFields, hiddenFields := jsSort p.hiddenFields }

/-- One tokenStore entry (server lines 457-465). -/
structure StoredToken where
  record : List (String × String)
  policy : Policy
  fieldCommitments : List (String × FieldCommitment)
  recordCommitment : Option Point
deriving DecidableEq

/-- The mutable process state touched by Issue: the policy catalog
(`POLICIES`, a module-level object the route mutates through `.sort()`)
and the token store. -/
structure ServerState where
  policies : List (String × Policy)
  tokenStore : List (String × StoredToken)
deriving DecidableEq

/-- What the token-creation route produces (server lines 434-529):
the stored entry, the policy hash (full digest, and the 32-char prefix
embedded in the JWT), and the post-request server state. -/
structure IssueResult where
  tokenId : String
  stored : StoredToken
  policyHashFull : String
  jwtPolicyHash : String
  state' : ServerState
deriving DecidableEq

/-- The token-creation route `POST /api/token/create` (server lines 434-529).
`tokenId` and the per-field randomness `rs` are the route's random draws,
passed explicitly.  Failures (404 citizen, 400 policy, and the TypeError
thrown by commitRecord's display block on an empty record, surfaced as a 500
by the route's try/catch) are `Except.error`.  `policy.visibleFields.sort()`
and `policy.hiddenFields.sort()` mutate the catalog's policy object in
place; `tokenStore.set` stored a reference to that same object beforehand,
so both the catalog entry and the stored token see the sorted arrays. -/
def createToken (sha256 : String → String) (hSecret : Scalar) (st : ServerState)
    (citizenDB : List (String × List (String × String)))
    (citizenId policyId tokenId : String) (rs : String → Scalar) :
    Except String IssueResult :=
  match lookupStr citizenId citizenDB with
  | none => .error "Citizen not found"
  | some record =>
    match lookupStr policyId st.policies with
    | none => .error "Invalid policy"
    | some policy =>
      let cr := commitRecord sha256 hSecret record rs
      match cr.recordCommitment with
      | none => .error "TypeError: Cannot read properties of null (reading getX)"
      | some _ =>
        let policy' := sortPolicy policy
        let ph := policyHash sha256 policy
        let stored : StoredToken :=
          { record := record, policy := policy',
            fieldCommitments := cr.fieldCommitments,
            recordCommitment := cr.recordCommitment }
        .ok { tokenId := tokenId, stored := stored,
              policyHashFull := ph, jwtPolicyHash := ph.take 32,
              state' := { policies := st.policies.map
                            (fun e => if e.1 = policyId then (e.1, policy') else e),
                          tokenStore := (tokenId, stored) :: st.tokenStore } }

/-- The filtering loop of the delegate route (server lines 561-573): walk
`policy.visibleFields`, skip fields absent from the record, collect the
filtered data and the openings.  A field present in the record but missing
from the commitment map makes the source throw (reading `.randomness` of
undefined), modelled as an error. -/
def buildOpenings (record : List (String × String))
    (fcs : List (String × FieldCommitment)) :
    List String → Except String (List (String × String) × List Opening)
  | [] => .ok ([], [])
  | f :: rest =>
    match lookupStr f record with
    | none => buildOpenings record fcs rest
    | some v =>
      match lookupStr f fcs with
      | none => .error "TypeError: Cannot read properties of undefined (reading randomness)"
      | some fc =>
        match buildOpenings record fcs rest with
        | .error e => .error e
        | .ok (fd, ops) => .ok ((f, v) :: fd, (⟨f, v, fc.randomness⟩ : Opening) :: ops)

/-- The `proof` object of the delegate route's response (server lines 603-611). -/
structure ProofPayload where
  recordCommitment : Point
  hiddenCommitment : Point
  visibleCommitment : Point
  visibleFields : List Opening
  hiddenFieldCount : ℕ
  verificationValid : Bool
deriving DecidableEq

/-- The delegate route's success response (server lines 595-620);
`policy` display info is omitted. -/
structure DispenseResult where
  filteredRecord : List (String × String)
  allowedActions : List String
  proof : ProofPayload
deriving DecidableEq

/-- The delegate route `GET /api/delegate/:token` after JWT verification and
token-store lookup (server lines 558-620), acting on the stored entry.
When the hidden or visible subset commitment or the stored record commitment
is null, `verifyPartition` dereferences null and the route 500s, modelled as
an error. -/
def dispense (stored : StoredToken) : Except String DispenseResult :=
  match buildOpenings stored.record stored.fieldCommitments stored.policy.visibleFields with
  | .error e => .error e
  | .ok (filteredData, visibleFieldsProof) =>
    let hiddenFieldNames :=
      stored.policy.hiddenFields.filter (fun f => (lookupStr f stored.record).isSome)
    let visiblePresent :=
      stored.policy.visibleFields.filter (fun f => (lookupStr f stored.record).isSome)
    match (computeSubsetCommitment stored.fieldCommitments hiddenFieldNames).1,
          (computeSubsetCommitment stored.fieldCommitments visiblePresent).1,
          stored.recordCommitment with
    | some cH, some cF, some cD =>
      .ok { filteredRecord := filteredData,
            allowedActions := stored.policy.allowedActions,
            proof := { recordCommitment := cD, hiddenCommitment := cH,
                       visibleCommitment := cF, visibleFields := visibleFieldsProof,
                       hiddenFieldCount := hiddenFieldNames.length,
                       verificationValid := verifyPartition cD cH cF } }
    | _, _, _ => .error "TypeError: Cannot read properties of null (reading add)"

/-- Whether an endpoint call succeeded (HTTP 200 with `success: true`). -/
def isOkE {α : Type} : Except String α → Bool
  | .ok _ => true
  | .error _ => false

/-- The filtered record of a dispense response (empty on error). -/
def dispFiltered (e : Except String DispenseResult) : List (String × String) :=
  match e with
  | .ok r => r.filteredRecord
  | .error _ => []

/-- The openings of a dispense response (empty on error). -/
def dispOpenings (e : Except String DispenseResult) : List Opening :=
  match e with
  | .ok r => r.proof.visibleFields
  | .error _ => []

/-- The blinding-factor scalars occurring anywhere in a dispense response:
in the modelled response the only scalar-typed leaves are the openings'
randomness values (points are not blinding factors). -/
def responseScalars (e : Except String DispenseResult) : List Scalar :=
  (dispOpenings e).map (fun o => o.randomness)

/-- The `id-renewal` policy of the catalog (server lines 373-379). -/
def idRenewalPolicy : Policy :=
  { name := "National ID Renewal"
    description := "Access to basic identity information for ID renewal"
    visibleFields := ["name", "nationalId", "dateOfBirth", "address"]
    hiddenFields := ["phone", "email", "taxRecords", "bankAccount", "medicalHistory", "propertyRecords"]
    allowedActions := ["view_id_info", "submit_renewal_application", "upload_photo"] }

/-- Commitment point stored for a name in a commitment map (identity when
absent); proof-side abbreviation used to state the summation lemmas. -/
def fcCommit (fcs : List (String × FieldCommitment)) (n : String) : Point :=
  match lookupStr n fcs with
  | some fc => fc.commitment
  | none => pointId

/-- Concrete stand-in for the SHA-256 hex digest, used in closed witness and
counterexample statements (any function works: the hash is abstract). -/
def cexSha : String → String := fun _ => "0f"

/-- A three-field record for exercising the delegate route. -/
def cexRecord : List (String × String) := [("a", "1"), ("b", "2"), ("c", "3")]

/-- A policy whose visible and hidden sets do not cover `cexRecord`:
field "c" is in neither. -/
def cexPolicy : Policy :=
  { name := "narrow", description := "", visibleFields := ["a"],
    hiddenFields := ["b"], allowedActions := ["view"] }

/-- The commitment material Issue would store for `cexRecord`. -/
def cexCR : CommitRecordResult := commitRecord cexSha 5 cexRecord (fun _ => 3)

/-- A token-store entry pairing `cexRecord` with the non-covering policy. -/
def cexStored : StoredToken :=
  { record := cexRecord, policy := cexPolicy,
    fieldCommitments := cexCR.fieldCommitments,
    recordCommitment := cexCR.recordCommitment }

/-- A two-field record used in closed witness statements. -/
def wRecord : List (String × String) := [("b", "2"), ("a", "1")]

/-- A covering policy for `wRecord` (visible "b", hidden "a"), with the
visible list deliberately unsorted relative to the hidden one. -/
def wPolicy : Policy :=
  { name := "w", description := "", visibleFields := ["b"],
    hiddenFields := ["a"], allowedActions := ["view"] }

/-- Commitment material for `wRecord`. -/
def wCR : CommitRecordResult := commitRecord cexSha 5 wRecord (fun _ => 3)

/-- A well-formed token-store entry for `wRecord` and `wPolicy`. -/
def wStored : StoredToken :=
  { record := wRecord, policy := wPolicy,
    fieldCommitments := wCR.fieldCommitments,
    recordCommitment := wCR.recordCommitment }

/-- A one-citizen database for closed Issue statements. -/
def wDb : List (String × List (String × String)) := [("c1", wRecord)]

/-- A policy with unsorted field arrays, for observing the catalog mutation. -/
def wCatPolicy : Policy :=
  { name := "cat", description := "", visibleFields := ["b", "a"],
    hiddenFields := ["d", "c"], allowedActions := [] }

/-- Server state holding that single catalog entry. -/
def wSt : ServerState := { policies := [("p1", wCatPolicy)], tokenStore := [] }

/-- The token-store entry Issue writes on success (body of `createToken`). -/
def issuedStored (sha256 : String → String) (hSecret : Scalar)
    (rec : List (String × String)) (p : Policy) (rs : String → Scalar) : StoredToken :=
  { record := rec, policy := sortPolicy p,
    fieldCommitments := (commitRecord sha256 hSecret rec rs).fieldCommitments,
    recordCommitment := (commitRecord sha256 hSecret rec rs).recordCommitment }

theorem foldl_optAdd_some (l : List Point) : ∀ a : Point, l.foldl optAdd (some a) = some (a + l.sum) := by
  induction l with
  | nil => intro a; simp
  | cons x xs ih => intro a; simp [optAdd, pointAdd, ih, add_assoc]

theorem optSum_cons (x : Point) (xs : List Point) : optSum (x :: xs) = some (x + xs.sum) := by
  simp [optSum, optAdd, foldl_optAdd_some]

theorem optSum_eq_sum (l : List Point) (h : l ≠ []) : optSum l = some l.sum := by
  cases l with
  | nil => cases h rfl
  | cons x xs => simp [optSum_cons]

theorem subsetGo_fst (fcs : List (String × FieldCommitment)) :
    ∀ (names : List String) (acc : Option Point) (inc : List String),
      (subsetGo fcs acc inc names).1
        = (names.filterMap (fun n => (lookupStr n fcs).map (fun fc => fc.commitment))).foldl optAdd acc := by
  intro names
  induction names with
  | nil => intro acc inc; simp [subsetGo]
  | cons n rest ih =>
    intro acc inc
    cases hl : lookupStr n fcs with
    | none => simp [subsetGo, hl, ih]
    | some fc => simp [subsetGo, hl, ih]

theorem computeSubset_fst (fcs : List (String × FieldCommitment)) (names : List String) :
    (computeSubsetCommitment fcs names).1
      = optSum (names.filterMap (fun n => (lookupStr n fcs).map (fun fc => fc.commitment))) := by
  simp [computeSubsetCommitment, optSum, subsetGo_fst]

theorem listMapCongr {α β : Type _} (l : List α) (f g : α → β)
    (h : ∀ a ∈ l, f a = g a) : l.map f = l.map g := by
  induction l with
  | nil => rfl
  | cons x xs ih =>
    simp only [List.map_cons]
    rw [h x (List.mem_cons_self x xs), ih (fun a ha => h a (List.mem_cons_of_mem _ ha))]

theorem lookupStr_mem {α : Type} {k : String} {b : α} {l : List (String × α)}
    (h : lookupStr k l = some b) : (k, b) ∈ l := by
  induction l with
  | nil => simp [lookupStr] at h
  | cons e rest ih =>
    rw [lookupStr] at h
    split at h
    · next he =>
      injection h with h2
      have he2 : e = (k, b) := Prod.ext he h2
      rw [he2]
      exact List.mem_cons_self _ _
    · next he => exact List.mem_cons_of_mem _ (ih h)

theorem mem_lookupStr {α : Type} {record : List (String × α)} {k : String} {v : α}
    (hnd : (record.map Prod.fst).Nodup) (hmem : (k, v) ∈ record) :
    lookupStr k record = some v := by
  induction record with
  | nil => simp at hmem
  | cons e rest ih =>
    rw [List.map_cons, List.nodup_cons] at hnd
    rcases List.mem_cons.mp hmem with he | ht
    · rw [← he]
      simp [lookupStr]
    · have hne : e.1 ≠ k := by
        intro hkeq
        exact hnd.1 (hkeq ▸ (List.mem_map.mpr ⟨(k, v), ht, rfl⟩))
      rw [lookupStr, if_neg hne]
      exact ih hnd.2 ht

theorem commitRecord_lookup (sha256 : String → String) (hSecret : Scalar)
    (record : List (String × String)) (rs : String → Scalar) (k v : String)
    (hnd : (record.map Prod.fst).Nodup) (hmem : (k, v) ∈ record) :
    lookupStr k (commitRecord sha256 hSecret record rs).fieldCommitments
      = some (commitField sha256 hSecret k v (rs k)) := by
  have hnd' : (((record.map (fun nv => (nv.1, commitField sha256 hSecret nv.1 nv.2 (rs nv.1)))).map Prod.fst)).Nodup := by
    simpa [List.map_map, Function.comp] using hnd
  exact mem_lookupStr hnd' (List.mem_map.mpr ⟨(k, v), hmem, rfl⟩)

theorem commitRecord_points (sha256 : String → String) (hSecret : Scalar)
    (record : List (String × String)) (rs : String → Scalar)
    (hnd : (record.map Prod.fst).Nodup) :
    ((commitRecord sha256 hSecret record rs).fieldCommitments).map (fun e => e.2.commitment)
      = (record.map Prod.fst).map (fcCommit (commitRecord sha256 hSecret record rs).fieldCommitments) := by
  have h1 : ((commitRecord sha256 hSecret record rs).fieldCommitments).map (fun e => e.2.commitment)
      = record.map (fun nv => (commitField sha256 hSecret nv.1 nv.2 (rs nv.1)).commitment) := by
    simp [commitRecord, List.map_map, Function.comp]
  have h2 : (record.map Prod.fst).map (fcCommit (commitRecord sha256 hSecret record rs).fieldCommitments)
      = record.map (fun nv => fcCommit (commitRecord sha256 hSecret record rs).fieldCommitments nv.1) := by
    simp [List.map_map, Function.comp]
  rw [h1, h2]
  refine (listMapCongr record _ _ ?_).symm
  intro nv hmem
  have hl := commitRecord_lookup sha256 hSecret record rs nv.1 nv.2 hnd hmem
  simp [fcCommit, hl]

theorem filterMap_lookup_map (fcs : List (String × FieldCommitment)) (names : List String)
    (h : ∀ n ∈ names, (lookupStr n fcs).isSome) :
    names.filterMap (fun n => (lookupStr n fcs).map (fun fc => fc.commitment))
      = names.map (fcCommit fcs) := by
  induction names with
  | nil => rfl
  | cons n rest ih =>
    have hn := h n (List.mem_cons_self _ _)
    rcases Option.isSome_iff_exists.mp hn with ⟨fc, hfc⟩
    simp [List.filterMap_cons, hfc, fcCommit,
      ih (fun m hm => h m (List.mem_cons_of_mem _ hm))]

theorem subset_present (fcs : List (String × FieldCommitment)) (names : List String)
    (h : ∀ n ∈ names, (lookupStr n fcs).isSome) (hne : names ≠ []) :
    (computeSubsetCommitment fcs names).1 = some ((names.map (fcCommit fcs)).sum) := by
  rw [computeSubset_fst, filterMap_lookup_map fcs names h]
  refine optSum_eq_sum _ ?_
  intro hnil
  exact hne (List.map_eq_nil_iff.mp hnil)

theorem commitRecord_none_iff (sha256 : String → String) (hSecret : Scalar)
    (record : List (String × String)) (rs : String → Scalar) :
    (commitRecord sha256 hSecret record rs).recordCommitment = none ↔ record = [] := by
  cases record with
  | nil => simp [commitRecord, optSum]
  | cons e rest => simp [commitRecord, optSum_cons]

theorem commitRecord_cd (sha256 : String → String) (hSecret : Scalar)
    (record : List (String × String)) (rs : String → Scalar)
    (hnd : (record.map Prod.fst).Nodup) (hne : record ≠ []) :
    (commitRecord sha256 hSecret record rs).recordCommitment
      = some (((record.map Prod.fst).map (fcCommit (commitRecord sha256 hSecret record rs).fieldCommitments)).sum) := by
  have h1 : (commitRecord sha256 hSecret record rs).recordCommitment
      = optSum (((commitRecord sha256 hSecret record rs).fieldCommitments).map (fun e => e.2.commitment)) := by
    simp [commitRecord]
  rw [h1, commitRecord_points sha256 hSecret record rs hnd]
  refine optSum_eq_sum _ ?_
  intro hnil
  exact hne (List.map_eq_nil_iff.mp (List.map_eq_nil_iff.mp hnil))

theorem perm_map_sum (A B keys : List String) (f : String → Point)
    (hperm : (A ++ B).Perm keys) :
    (A.map f).sum + (B.map f).sum = (keys.map f).sum := by
  have h := (hperm.map f).sum_eq
  simpa [List.map_append, List.sum_append] using h

theorem fcs_entry_consistent (sha256 : String → String) (hSecret : Scalar)
    (record : List (String × String)) (rs : String → Scalar) {n : String} {fc : FieldCommitment}
    (h : (n, fc) ∈ (commitRecord sha256 hSecret record rs).fieldCommitments) :
    openingCommit sha256 hSecret ⟨fc.fieldName, fc.value, fc.randomness⟩ = fc.commitment := by
  have h' : (n, fc) ∈ record.map (fun nv => (nv.1, commitField sha256 hSecret nv.1 nv.2 (rs nv.1))) := h
  rcases List.mem_map.mp h' with ⟨nv, _, heq⟩
  have hfc : commitField sha256 hSecret nv.1 nv.2 (rs nv.1) = fc := congrArg Prod.snd heq
  rw [← hfc]
  rfl

theorem honestOpenings_commits (sha256 : String → String) (hSecret : Scalar)
    (record : List (String × String)) (rs : String → Scalar) (V : List String)
    (hpres : ∀ n ∈ V, (lookupStr n (commitRecord sha256 hSecret record rs).fieldCommitments).isSome) :
    (honestOpenings (commitRecord sha256 hSecret record rs).fieldCommitments V).map
        (openingCommit sha256 hSecret)
      = V.map (fcCommit (commitRecord sha256 hSecret record rs).fieldCommitments) := by
  induction V with
  | nil => rfl
  | cons n rest ih =>
    have hn := hpres n (List.mem_cons_self _ _)
    rcases Option.isSome_iff_exists.mp hn with ⟨fc, hfc⟩
    have hcons := fcs_entry_consistent sha256 hSecret record rs (lookupStr_mem hfc)
    simp [honestOpenings, List.filterMap_cons, hfc, fcCommit, hcons,
      ih (fun m hm => hpres m (List.mem_cons_of_mem _ hm))]
    exact ih (fun m hm => hpres m (List.mem_cons_of_mem _ hm))

theorem charListLe_total : ∀ x y : List Char, charListLe x y = true ∨ charListLe y x = true := by
  intro x
  induction x with
  | nil => intro y; left; rfl
  | cons c cs ih =>
    intro y
    cases y with
    | nil => right; rfl
    | cons d ds =>
      by_cases h1 : c.toNat < d.toNat
      · left; simp [charListLe, h1]
      · by_cases h2 : d.toNat < c.toNat
        · right; simp [charListLe, h2]
        · rcases ih ds with h | h
          · left; simp [charListLe, h1, h2, h]
          · right; simp [charListLe, h1, h2, h]

theorem charListLe_trans : ∀ x y z : List Char,
    charListLe x y = true → charListLe y z = true → charListLe x z = true := by
  intro x
  induction x with
  | nil => intro y z _ _; rfl
  | cons c cs ih =>
    intro y z hxy hyz
    cases y with
    | nil => simp [charListLe] at hxy
    | cons d ds =>
      cases z with
      | nil => simp [charListLe] at hyz
      | cons e es =>
        by_cases h1 : c.toNat < d.toNat
        · by_cases h2 : d.toNat < e.toNat
          · simp [charListLe, Nat.lt_trans h1 h2]
          · by_cases h3 : e.toNat < d.toNat
            · simp [charListLe, h2, h3] at hyz
            · have hde : d.toNat = e.toNat :=
                Nat.le_antisymm (Nat.le_of_not_lt h3) (Nat.le_of_not_lt h2)
              have hce : c.toNat < e.toNat := by rw [← hde]; exact h1
              simp [charListLe, hce]
        · by_cases h4 : d.toNat < c.toNat
          · simp [charListLe, h1, h4] at hxy
          · have hcd : c.toNat = d.toNat :=
              Nat.le_antisymm (Nat.le_of_not_lt h4) (Nat.le_of_not_lt h1)
            have hcsds : charListLe cs ds = true := by
              simpa [charListLe, h1, h4] using hxy
            by_cases h2 : d.toNat < e.toNat
            · have hce : c.toNat < e.toNat := by rw [hcd]; exact h2
              simp [charListLe, hce]
            · by_cases h3 : e.toNat < d.toNat
              · simp [charListLe, h2, h3] at hyz
              · have hde : d.toNat = e.toNat :=
                  Nat.le_antisymm (Nat.le_of_not_lt h3) (Nat.le_of_not_lt h2)
                have hdses : charListLe ds es = true := by
                  simpa [charListLe, h2, h3] using hyz
                have hce : ¬ c.toNat < e.toNat := by
                  rw [hcd, hde]; exact Nat.lt_irrefl _
                have hec : ¬ e.toNat < c.toNat := by
                  rw [hcd, hde]; exact Nat.lt_irrefl _
                simp [charListLe, hce, hec, ih ds es hcsds hdses]

theorem charListLe_antisymm : ∀ x y : List Char,
    charListLe x y = true → charListLe y x = true → x = y := by
  intro x
  induction x with
  | nil =>
    intro y _ hyx
    cases y with
    | nil => rfl
    | cons d ds => simp [charListLe] at hyx
  | cons c cs ih =>
    intro y hxy hyx
    cases y with
    | nil => simp [charListLe] at hxy
    | cons d ds =>
      by_cases h1 : c.toNat < d.toNat
      · have h1x : ¬ d.toNat < c.toNat := Nat.lt_asymm h1
        simp [charListLe, h1, h1x] at hyx
      · by_cases h2 : d.toNat < c.toNat
        · simp [charListLe, h1, h2] at hxy
        · have hcd : c.toNat = d.toNat :=
            Nat.le_antisymm (Nat.le_of_not_lt h2) (Nat.le_of_not_lt h1)
          have hc : c = d := by
            have hv : c.val = d.val := by
              unfold Char.toNat at hcd
              exact UInt32.toNat.inj hcd
            exact Char.ext hv
          have hcs : charListLe cs ds = true := by simpa [charListLe, h1, h2] using hxy
          have hds : charListLe ds cs = true := by simpa [charListLe, h1, h2] using hyx
          rw [hc, ih ds hcs hds]

theorem jsSort_perm_eq {l₁ l₂ : List String} (h : List.Perm l₁ l₂) : jsSort l₁ = jsSort l₂ := by
  haveI : IsTotal String strLe := ⟨fun a b => charListLe_total a.data b.data⟩
  haveI : IsTrans String strLe := ⟨fun a b c => charListLe_trans a.data b.data c.data⟩
  haveI : IsAntisymm String strLe := ⟨fun a b h1 h2 => by
    cases a with
    | mk da =>
      cases b with
      | mk db =>
        have hd : da = db := charListLe_antisymm da db h1 h2
        rw [hd]⟩
  unfold jsSort
  exact List.eq_of_perm_of_sorted
    ((List.perm_insertionSort _ l₁).trans (h.trans (List.perm_insertionSort _ l₂).symm))
    (List.sorted_insertionSort _ l₁) (List.sorted_insertionSort _ l₂)

theorem lookup_map_replace (l : List (String × Policy)) (pid : String) (p q : Policy)
    (hp : lookupStr pid l = some p) :
    lookupStr pid (l.map (fun e => if e.1 = pid then (e.1, q) else e)) = some q := by
  induction l with
  | nil => simp [lookupStr] at hp
  | cons e rest ih =>
    by_cases he : e.1 = pid
    · simp [lookupStr, he]
    · rw [lookupStr, if_neg he] at hp
      simp [lookupStr, he, ih hp]

theorem createToken_ok (sha256 : String → String) (hSecret : Scalar) (st : ServerState)
    (db : List (String × List (String × String))) (cid pid tid : String)
    (rs : String → Scalar) (rec : List (String × String)) (p : Policy)
    (hrec : lookupStr cid db = some rec) (hne : rec ≠ [])
    (hp : lookupStr pid st.policies = some p) :
    createToken sha256 hSecret st db cid pid tid rs = .ok
      { tokenId := tid, stored := issuedStored sha256 hSecret rec p rs,
        policyHashFull := policyHash sha256 p,
        jwtPolicyHash := (policyHash sha256 p).take 32,
        state' := { policies := st.policies.map
                      (fun e => if e.1 = pid then (e.1, sortPolicy p) else e),
                    tokenStore := (tid, issuedStored sha256 hSecret rec p rs) :: st.tokenStore } } := by
  obtain ⟨x, hx⟩ : ∃ x, (commitRecord sha256 hSecret rec rs).recordCommitment = some x := by
    cases hcr : (commitRecord sha256 hSecret rec rs).recordCommitment with
    | none => exact absurd ((commitRecord_none_iff sha256 hSecret rec rs).mp hcr) hne
    | some x => exact ⟨x, rfl⟩
  simp [createToken, hrec, hp, hx, issuedStored]

theorem buildOpenings_spec (record : List (String × String))
    (fcs : List (String × FieldCommitment)) :
    ∀ (names : List String) (fd : List (String × String)) (ops : List Opening),
      buildOpenings record fcs names = .ok (fd, ops) →
      ∀ o ∈ ops, o.fieldName ∈ names
        ∧ lookupStr o.fieldName record = some o.value
        ∧ ∃ fc, lookupStr o.fieldName fcs = some fc ∧ o.randomness = fc.randomness := by
  intro names
  induction names with
  | nil =>
    intro fd ops h o ho
    simp [buildOpenings] at h
    rw [h.2] at ho
    simp at ho
  | cons f rest ih =>
    intro fd ops h o ho
    rw [buildOpenings] at h
    cases hr : lookupStr f record with
    | none =>
      rw [hr] at h
      have := ih fd ops h o ho
      exact ⟨List.mem_cons_of_mem _ this.1, this.2⟩
    | some v =>
      rw [hr] at h
      cases hf : lookupStr f fcs with
      | none => rw [hf] at h; cases h
      | some fc =>
        rw [hf] at h
        cases hrest : buildOpenings record fcs rest with
        | error e => rw [hrest] at h; cases h
        | ok pr =>
          obtain ⟨fd', ops'⟩ := pr
          rw [hrest] at h
          injection h with hpair
          have hops : ops = (⟨f, v, fc.randomness⟩ : Opening) :: ops' :=
            (congrArg Prod.snd hpair).symm
          rw [hops] at ho
          rcases List.mem_cons.mp ho with ho1 | ho2
          · rw [ho1]
            exact ⟨List.mem_cons_self _ _, hr, fc, hf, rfl⟩
          · have := ih fd' ops' hrest o ho2
            exact ⟨List.mem_cons_of_mem _ this.1, this.2⟩

theorem dispense_ok_inv (stored : StoredToken) (res : DispenseResult)
    (h : dispense stored = .ok res) :
    ∃ fd, buildOpenings stored.record stored.fieldCommitments stored.policy.visibleFields
        = .ok (fd, res.proof.visibleFields) := by
  rw [dispense] at h
  split at h
  · exact absurd h (by simp)
  · next filteredData visibleFieldsProof heq =>
    simp only [] at h
    split at h
    · next =>
      injection h with hres
      exact ⟨filteredData, by rw [← hres]; exact heq⟩
    · exact absurd h (by simp)

/-- C3 (amended): for every record with distinct field names and every
partition (A, B) of its field names in which both classes contain at least
one field, computeSubsetCommitment over A plus computeSubsetCommitment over
B (point addition) equals commitRecord's record commitment C_D.  The
amendment drops the empty classes the claim included: an empty class makes
computeSubsetCommitment return null (JS null, not the identity point), so
the claimed point addition cannot even be evaluated (see the
counterexample). -/
theorem subset_homomorphism (sha256 : String → String) (hSecret : Scalar)
    (record : List (String × String)) (rs : String → Scalar) (A B : List String)
    (hnd : (record.map Prod.fst).Nodup)
    (hperm : (A ++ B).Perm (record.map Prod.fst))
    (hA : A ≠ []) (hB : B ≠ []) :
    ∃ pA pB pD,
      (computeSubsetCommitment (commitRecord sha256 hSecret record rs).fieldCommitments A).1 = some pA
      ∧ (computeSubsetCommitment (commitRecord sha256 hSecret record rs).fieldCommitments B).1 = some pB
      ∧ (commitRecord sha256 hSecret record rs).recordCommitment = some pD
      ∧ pointAdd pA pB = pD := by
  have hpres : ∀ n ∈ A ++ B,
      (lookupStr n (commitRecord sha256 hSecret record rs).fieldCommitments).isSome := by
    intro n hn
    rcases List.mem_map.mp (hperm.mem_iff.mp hn) with ⟨nv, hnv, hfst⟩
    have hl := commitRecord_lookup sha256 hSecret record rs nv.1 nv.2 hnd hnv
    rw [← hfst, hl]
    rfl
  have hsA := subset_present _ A (fun n hn => hpres n (List.mem_append_left _ hn)) hA
  have hsB := subset_present _ B (fun n hn => hpres n (List.mem_append_right _ hn)) hB
  have hrecne : record ≠ [] := by
    intro h0
    rw [h0] at hperm
    simp at hperm
    exact hA hperm.1
  have hcd := commitRecord_cd sha256 hSecret record rs hnd hrecne
  refine ⟨_, _, _, hsA, hsB, hcd, ?_⟩
  exact perm_map_sum A B _ _ hperm

/-- C3 counterexample: on the one-field record ("b", "y") with the partition
A = [] (empty), B = ["b"] — a partition the claim explicitly includes — the
subset commitment for A is null, so there is no point pA at all, and the
claimed identity fails. -/
theorem subset_homomorphism_claim_cex :
    ¬ ∃ pA pB pD : Point,
      (computeSubsetCommitment (commitRecord cexSha 5 [("b", "y")] (fun _ => 3)).fieldCommitments []).1 = some pA
      ∧ (computeSubsetCommitment (commitRecord cexSha 5 [("b", "y")] (fun _ => 3)).fieldCommitments ["b"]).1 = some pB
      ∧ (commitRecord cexSha 5 [("b", "y")] (fun _ => 3)).recordCommitment = some pD
      ∧ pointAdd pA pB = pD := by
  rintro ⟨pA, pB, pD, hA, _, _, _⟩
  have hnone : (computeSubsetCommitment (commitRecord cexSha 5 [("b", "y")] (fun _ => 3)).fieldCommitments []).1 = none := rfl
  rw [hnone] at hA
  exact Option.noConfusion hA

theorem subset_homomorphism_witness :
    ((wRecord.map Prod.fst).Nodup
      ∧ (["a"] ++ ["b"]).Perm (wRecord.map Prod.fst)
      ∧ (["a"] : List String) ≠ [] ∧ (["b"] : List String) ≠ [])
    ∧ ∃ pA pB pD,
      (computeSubsetCommitment (commitRecord cexSha 5 wRecord (fun _ => 3)).fieldCommitments ["a"]).1 = some pA
      ∧ (computeSubsetCommitment (commitRecord cexSha 5 wRecord (fun _ => 3)).fieldCommitments ["b"]).1 = some pB
      ∧ (commitRecord cexSha 5 wRecord (fun _ => 3)).recordCommitment = some pD
      ∧ pointAdd pA pB = pD :=
  ⟨⟨by decide, by decide, by decide, by decide⟩,
    subset_homomorphism cexSha 5 wRecord (fun _ => 3) ["a"] ["b"]
      (by decide) (by decide) (by decide) (by decide)⟩

/-- C1 (amended): honest partition correctness.  If the server builds the
proof honestly from commitRecord's output — C_D the record commitment, C_H
the subset commitment over the hidden class H, and one opening
(name, value, randomness) per field of the visible class V — then
verifyPartition(C_D, C_H, recomputeCommitment(openings)) reports valid.
The amendment requires both classes of the partition to contain at least
one record field: if V or H is empty the corresponding commitment is null
(JS null) and the source's verifyPartition throws a TypeError instead of
reporting a verdict (see the counterexample). -/
theorem honest_partition_verifies (sha256 : String → String) (hSecret : Scalar)
    (record : List (String × String)) (rs : String → Scalar) (V H : List String)
    (hnd : (record.map Prod.fst).Nodup)
    (hperm : (V ++ H).Perm (record.map Prod.fst))
    (hV : V ≠ []) (hH : H ≠ []) :
    ∃ cD cH cF,
      (commitRecord sha256 hSecret record rs).recordCommitment = some cD
      ∧ (computeSubsetCommitment (commitRecord sha256 hSecret record rs).fieldCommitments H).1 = some cH
      ∧ recomputeCommitment sha256 hSecret
          (honestOpenings (commitRecord sha256 hSecret record rs).fieldCommitments V) = some cF
      ∧ verifyPartition cD cH cF = true := by
  have hpres : ∀ n ∈ V ++ H,
      (lookupStr n (commitRecord sha256 hSecret record rs).fieldCommitments).isSome := by
    intro n hn
    rcases List.mem_map.mp (hperm.mem_iff.mp hn) with ⟨nv, hnv, hfst⟩
    have hl := commitRecord_lookup sha256 hSecret record rs nv.1 nv.2 hnd hnv
    rw [← hfst, hl]
    rfl
  have hVpres : ∀ n ∈ V, (lookupStr n (commitRecord sha256 hSecret record rs).fieldCommitments).isSome :=
    fun n hn => hpres n (List.mem_append_left _ hn)
  have hsH := subset_present _ H (fun n hn => hpres n (List.mem_append_right _ hn)) hH
  have hrecne : record ≠ [] := by
    intro h0
    rw [h0] at hperm
    simp at hperm
    exact hV hperm.1
  have hcd := commitRecord_cd sha256 hSecret record rs hnd hrecne
  have hcf : recomputeCommitment sha256 hSecret
      (honestOpenings (commitRecord sha256 hSecret record rs).fieldCommitments V)
      = some ((V.map (fcCommit (commitRecord sha256 hSecret record rs).fieldCommitments)).sum) := by
    show optSum ((honestOpenings (commitRecord sha256 hSecret record rs).fieldCommitments V).map
      (openingCommit sha256 hSecret)) = _
    rw [honestOpenings_commits sha256 hSecret record rs V hVpres]
    refine optSum_eq_sum _ ?_
    intro hnil
    exact hV (List.map_eq_nil_iff.mp hnil)
  refine ⟨_, _, _, hcd, hsH, hcf, ?_⟩
  have hsum := perm_map_sum H V (record.map Prod.fst)
    (fcCommit (commitRecord sha256 hSecret record rs).fieldCommitments)
    (List.perm_append_comm.trans hperm)
  simp only [verifyPartition, pointAdd, decide_eq_true_eq]
  exact hsum.symm

/-- C1 counterexample: for the one-field record ("a", "x") partitioned into
V = ["a"], H = [] (every key covered, as the claim requires), the hidden
subset commitment is null, so no point cH exists and verifyPartition never
reports valid = true (the source throws instead). -/
theorem honest_partition_claim_cex :
    ¬ ∃ cD cH cF : Point,
      (commitRecord cexSha 5 [("a", "x")] (fun _ => 3)).recordCommitment = some cD
      ∧ (computeSubsetCommitment (commitRecord cexSha 5 [("a", "x")] (fun _ => 3)).fieldCommitments []).1 = some cH
      ∧ recomputeCommitment cexSha 5
          (honestOpenings (commitRecord cexSha 5 [("a", "x")] (fun _ => 3)).fieldCommitments ["a"]) = some cF
      ∧ verifyPartition cD cH cF = true := by
  rintro ⟨cD, cH, cF, _, hH, _, _⟩
  have hnone : (computeSubsetCommitment (commitRecord cexSha 5 [("a", "x")] (fun _ => 3)).fieldCommitments []).1 = none := rfl
  rw [hnone] at hH
  exact Option.noConfusion hH

theorem honest_partition_verifies_witness :
    ((wRecord.map Prod.fst).Nodup
      ∧ (["b"] ++ ["a"]).Perm (wRecord.map Prod.fst)
      ∧ (["b"] : List String) ≠ [] ∧ (["a"] : List String) ≠ [])
    ∧ ∃ cD cH cF,
      (commitRecord cexSha 5 wRecord (fun _ => 3)).recordCommitment = some cD
      ∧ (computeSubsetCommitment (commitRecord cexSha 5 wRecord (fun _ => 3)).fieldCommitments ["a"]).1 = some cH
      ∧ recomputeCommitment cexSha 5
          (honestOpenings (commitRecord cexSha 5 wRecord (fun _ => 3)).fieldCommitments ["b"]) = some cF
      ∧ verifyPartition cD cH cF = true :=
  ⟨⟨by decide, by decide, by decide, by decide⟩,
    honest_partition_verifies cexSha 5 wRecord (fun _ => 3) ["b"] ["a"]
      (by decide) (by decide) (by decide) (by decide)⟩

/-- C4: commitment reproducibility.  commitField(n, v, r) returns the point
g·hashToScalar(n ∥ "||" ∥ v) + h·r, with the literal two-character
separator "||"; consequently the stored commitment is reproducible from
(name, value, r) alone, as recomputeCommitment does for a single opening. -/
theorem commitField_reproducible (sha256 : String → String) (hSecret : Scalar)
    (n v : String) (r : Scalar) :
    (commitField sha256 hSecret n v r).commitment
        = pointAdd (pointMul gPoint (hashToScalar sha256 (n ++ "||" ++ v)))
            (pointMul (hPoint hSecret) r)
      ∧ fieldMessage n v = n ++ "||" ++ v
      ∧ recomputeCommitment sha256 hSecret [⟨n, v, r⟩]
          = some ((commitField sha256 hSecret n v r).commitment) :=
  ⟨rfl, rfl, rfl⟩

/-- C5 (amended): computeSubsetCommitment applied to an empty name list, or
to a list of names none of which is present in the field-commitment map
(unknown names are skipped silently), returns null — `none`, the JS null the
source's loop never replaces — and an empty `included` list; likewise
recomputeCommitment of an empty openings list returns null.  The claim said
these calls return the group identity point; they do not (see the
counterexample): null is not a point, and downstream point operations on it
throw. -/
theorem subset_empty_returns_null (sha256 : String → String) (hSecret : Scalar)
    (fcs : List (String × FieldCommitment)) (names : List String)
    (h : ∀ n ∈ names, lookupStr n fcs = none) :
    (computeSubsetCommitment fcs names).1 = none
      ∧ (computeSubsetCommitment fcs names).2 = []
      ∧ recomputeCommitment sha256 hSecret [] = none := by
  have key : ∀ (ns : List String), (∀ n ∈ ns, lookupStr n fcs = none) →
      ∀ acc inc, subsetGo fcs acc inc ns = (acc, inc) := by
    intro ns
    induction ns with
    | nil => intro _ acc inc; rfl
    | cons n rest ih =>
      intro hall acc inc
      have h0 := hall n (List.mem_cons_self _ _)
      simp only [subsetGo, h0]
      exact ih (fun m hm => hall m (List.mem_cons_of_mem _ hm)) acc inc
  have hrun := key names h none []
  exact ⟨by rw [computeSubsetCommitment, hrun], by rw [computeSubsetCommitment, hrun], rfl⟩

/-- C5 counterexample: on empty inputs both functions return null (`none`),
not the group identity point. -/
theorem subset_empty_not_identity :
    (computeSubsetCommitment [] ([] : List String)).1 ≠ some pointId
      ∧ recomputeCommitment cexSha 5 [] ≠ some pointId := by
  constructor
  · intro h
    exact Option.noConfusion h
  · intro h
    exact Option.noConfusion h

theorem subset_empty_returns_null_witness :
    (∀ n ∈ (["x"] : List String), lookupStr n ([] : List (String × FieldCommitment)) = none)
    ∧ ((computeSubsetCommitment ([] : List (String × FieldCommitment)) ["x"]).1 = none
      ∧ (computeSubsetCommitment ([] : List (String × FieldCommitment)) ["x"]).2 = []
      ∧ recomputeCommitment cexSha 5 [] = none) :=
  ⟨by decide, subset_empty_returns_null cexSha 5 [] ["x"] (by decide)⟩

/-- C6 (amended): commitRecord applied to a record with no fields yields a
null record commitment (`none`) and an empty commitment map — not the group
identity point the claim states — and the token-creation route fails with a
TypeError (the source dereferences the null commitment when building its
display output), so no partition proof can be formed, let alone verified,
against this C_D. -/
theorem commitRecord_empty_returns_null (sha256 : String → String) (hSecret : Scalar)
    (rs : String → Scalar) (st : ServerState) (pid tid : String) (p : Policy)
    (hp : lookupStr pid st.policies = some p) :
    (commitRecord sha256 hSecret [] rs).recordCommitment = none
      ∧ (commitRecord sha256 hSecret [] rs).fieldCommitments = []
      ∧ isOkE (createToken sha256 hSecret st [("cz", [])] "cz" pid tid rs) = false := by
  refine ⟨rfl, rfl, ?_⟩
  have h1 : lookupStr "cz" [("cz", ([] : List (String × String)))] = some [] := rfl
  simp [createToken, h1, hp, commitRecord, optSum, isOkE]

/-- C6 counterexample: the record commitment of the empty record is null
(`none`), not the group identity point. -/
theorem commitRecord_empty_not_identity :
    (commitRecord cexSha 5 [] (fun _ => 3)).recordCommitment ≠ some pointId := by
  intro h
  exact Option.noConfusion h

theorem commitRecord_empty_returns_null_witness :
    (lookupStr "p1" wSt.policies = some wCatPolicy)
    ∧ ((commitRecord cexSha 5 [] (fun _ => 3)).recordCommitment = none
      ∧ (commitRecord cexSha 5 [] (fun _ => 3)).fieldCommitments = []
      ∧ isOkE (createToken cexSha 5 wSt [("cz", [])] "cz" "p1" "t1" (fun _ => 3)) = false) :=
  ⟨by decide, commitRecord_empty_returns_null cexSha 5 (fun _ => 3) wSt "p1" "t1" wCatPolicy (by decide)⟩

/-- C7: the separator does collide.  The hash inputs built by commitField
for the two distinct pairs ("a", "b||c") and ("a||b", "c") are the same
string "a||b||c", so for equal randomness the two fields receive identical
commitments — refuting the claim that distinct (name, value) pairs always
produce distinct hash inputs, exactly the encoding flaw §9 of the
specification mandates fixing. -/
theorem separator_collision (sha256 : String → String) (hSecret : Scalar) (r : Scalar) :
    fieldMessage "a" "b||c" = fieldMessage "a||b" "c"
      ∧ (("a", "b||c") : String × String) ≠ ("a||b", "c")
      ∧ (commitField sha256 hSecret "a" "b||c" r).commitment
          = (commitField sha256 hSecret "a||b" "c" r).commitment := by
  have hmsg : fieldMessage "a" "b||c" = fieldMessage "a||b" "c" := by decide
  refine ⟨hmsg, by decide, ?_⟩
  simp [commitField, hmsg]

/-- C2: the delegate route has no coverage check.  On a stored token whose
policy leaves record field "c" in neither the visible nor the hidden set
(so V ∪ H ≠ keys(record)), Dispense succeeds and returns a filtered record
and proof — there is no PolicyRecordMismatch failure anywhere in the source
(the string does not occur in the code); the specification itself lists
this in §9 as a correctness-critical check the source silently omits. -/
theorem dispense_lacks_coverage_check :
    ("c" ∈ cexRecord.map Prod.fst
      ∧ "c" ∉ cexPolicy.visibleFields
      ∧ "c" ∉ cexPolicy.hiddenFields)
    ∧ isOkE (dispense cexStored) = true
    ∧ dispFiltered (dispense cexStored) = [("a", "1")] := by
  decide

/-- C9: openings disclose randomness only for visible fields.  In any
dispense response, every opening's field name lies in the policy's visible
list (and, for a well-formed policy with disjoint classes, not in the hidden
list), its value is the record's value for that field, and its randomness is
the stored field commitment's blinding factor; every blinding-factor scalar
appearing anywhere in the response (the openings are the only scalar-typed
leaves of the response) is the blinding factor of such a visible field, so
no hidden field's blinding factor is disclosed. -/
theorem openings_only_visible (stored : StoredToken)
    (hdisj : ∀ f ∈ stored.policy.visibleFields, f ∉ stored.policy.hiddenFields) :
    (∀ o ∈ dispOpenings (dispense stored),
        o.fieldName ∈ stored.policy.visibleFields
          ∧ o.fieldName ∉ stored.policy.hiddenFields
          ∧ lookupStr o.fieldName stored.record = some o.value
          ∧ ∃ fc, lookupStr o.fieldName stored.fieldCommitments = some fc
              ∧ o.randomness = fc.randomness)
    ∧ ∀ s ∈ responseScalars (dispense stored),
        ∃ k fc, k ∈ stored.policy.visibleFields ∧ k ∉ stored.policy.hiddenFields
          ∧ lookupStr k stored.fieldCommitments = some fc ∧ s = fc.randomness := by
  have main : ∀ o ∈ dispOpenings (dispense stored),
      o.fieldName ∈ stored.policy.visibleFields
        ∧ o.fieldName ∉ stored.policy.hiddenFields
        ∧ lookupStr o.fieldName stored.record = some o.value
        ∧ ∃ fc, lookupStr o.fieldName stored.fieldCommitments = some fc
            ∧ o.randomness = fc.randomness := by
    intro o ho
    cases hd : dispense stored with
    | error e =>
      rw [hd] at ho
      simp [dispOpenings] at ho
    | ok res =>
      rw [hd] at ho
      have ho' : o ∈ res.proof.visibleFields := ho
      rcases dispense_ok_inv stored res hd with ⟨fd, hb⟩
      have hs := buildOpenings_spec stored.record stored.fieldCommitments
        stored.policy.visibleFields fd res.proof.visibleFields hb o ho'
      exact ⟨hs.1, hdisj _ hs.1, hs.2.1, hs.2.2⟩
  refine ⟨main, ?_⟩
  intro s hs
  rw [responseScalars] at hs
  rcases List.mem_map.mp hs with ⟨o, ho, hmap⟩
  rcases main o ho with ⟨h1, h2, _, fc, h4, h5⟩
  exact ⟨o.fieldName, fc, h1, h2, h4, by rw [← hmap, h5]⟩

theorem openings_only_visible_witness :
    (∀ f ∈ wStored.policy.visibleFields, f ∉ wStored.policy.hiddenFields)
    ∧ ((∀ o ∈ dispOpenings (dispense wStored),
        o.fieldName ∈ wStored.policy.visibleFields
          ∧ o.fieldName ∉ wStored.policy.hiddenFields
          ∧ lookupStr o.fieldName wStored.record = some o.value
          ∧ ∃ fc, lookupStr o.fieldName wStored.fieldCommitments = some fc
              ∧ o.randomness = fc.randomness)
    ∧ ∀ s ∈ responseScalars (dispense wStored),
        ∃ k fc, k ∈ wStored.policy.visibleFields ∧ k ∉ wStored.policy.hiddenFields
          ∧ lookupStr k wStored.fieldCommitments = some fc ∧ s = fc.randomness) :=
  ⟨by decide, openings_only_visible wStored (by decide)⟩

/-- C8: policy hash determinism.  Two issuances over the same (record,
policy) — with different token ids and different commitment randomness —
produce bit-identical policy hashes, both the full digest and the 32-char
prefix embedded in the JWT; the hash is SHA-256 over the canonical JSON of
the sorted visible and hidden name arrays and depends only on the two name
sets (any reordering of the field lists yields the same hash). -/
theorem policy_hash_stable (sha256 : String → String) (hSecret : Scalar)
    (st : ServerState) (db : List (String × List (String × String)))
    (cid pid tid₁ tid₂ : String) (rs₁ rs₂ : String → Scalar) :
    ((createToken sha256 hSecret st db cid pid tid₁ rs₁).toOption.map (fun r => r.policyHashFull)
        = (createToken sha256 hSecret st db cid pid tid₂ rs₂).toOption.map (fun r => r.policyHashFull))
    ∧ ((createToken sha256 hSecret st db cid pid tid₁ rs₁).toOption.map (fun r => r.jwtPolicyHash)
        = (createToken sha256 hSecret st db cid pid tid₂ rs₂).toOption.map (fun r => r.jwtPolicyHash))
    ∧ (∀ rec p, lookupStr cid db = some rec → rec ≠ [] → lookupStr pid st.policies = some p →
        (createToken sha256 hSecret st db cid pid tid₁ rs₁).toOption.map (fun r => r.policyHashFull)
          = some (sha256 (policyJson (jsSort p.visibleFields) (jsSort p.hiddenFields))))
    ∧ (∀ p q : Policy, List.Perm p.visibleFields q.visibleFields →
        List.Perm p.hiddenFields q.hiddenFields →
        policyHash sha256 p = policyHash sha256 q) := by
  refine ⟨?_, ?_, ?_, ?_⟩
  · cases hdb : lookupStr cid db with
    | none => simp [createToken, hdb]
    | some rec =>
      cases hpol : lookupStr pid st.policies with
      | none => simp [createToken, hdb, hpol]
      | some p =>
        cases rec with
        | nil => simp [createToken, hdb, hpol, commitRecord, optSum]
        | cons e t =>
          rw [createToken_ok sha256 hSecret st db cid pid tid₁ rs₁ (e :: t) p hdb (by simp) hpol,
            createToken_ok sha256 hSecret st db cid pid tid₂ rs₂ (e :: t) p hdb (by simp) hpol]
          rfl
  · cases hdb : lookupStr cid db with
    | none => simp [createToken, hdb]
    | some rec =>
      cases hpol : lookupStr pid st.policies with
      | none => simp [createToken, hdb, hpol]
      | some p =>
        cases rec with
        | nil => simp [createToken, hdb, hpol, commitRecord, optSum]
        | cons e t =>
          rw [createToken_ok sha256 hSecret st db cid pid tid₁ rs₁ (e :: t) p hdb (by simp) hpol,
            createToken_ok sha256 hSecret st db cid pid tid₂ rs₂ (e :: t) p hdb (by simp) hpol]
          rfl
  · intro rec p hdb hne hpol
    rw [createToken_ok sha256 hSecret st db cid pid tid₁ rs₁ rec p hdb hne hpol]
    rfl
  · intro p q hv hh
    simp only [policyHash, jsSort_perm_eq hv, jsSort_perm_eq hh]

theorem policy_hash_stable_witness :
    (lookupStr "c1" wDb = some wRecord) ∧ wRecord ≠ []
      ∧ (lookupStr "p1" wSt.policies = some wCatPolicy)
      ∧ ((createToken cexSha 5 wSt wDb "c1" "p1" "t1" (fun _ => 3)).toOption.map (fun r => r.policyHashFull)
          = some (cexSha (policyJson (jsSort wCatPolicy.visibleFields) (jsSort wCatPolicy.hiddenFields)))) :=
  ⟨by decide, by decide, by decide,
    (policy_hash_stable cexSha 5 wSt wDb "c1" "p1" "t1" "t2" (fun _ => 3) (fun _ => 4)).2.2.1
      wRecord wCatPolicy (by decide) (by decide) (by decide)⟩

/-- C10: token issuance mutates the shared policy catalog.  Computing the
policy hash calls .sort() in place on policy.visibleFields and
policy.hiddenFields, so after a successful Issue the catalog entry for the
policy — and the policy object captured in the token store, which aliases
it — carries the permanently re-sorted field arrays; concretely, for the
catalog's id-renewal policy the visible array changes from
[name, nationalId, dateOfBirth, address] to the sorted
[address, dateOfBirth, name, nationalId], so the policy object is not left
unchanged and every later Dispense iterates the visible fields in the new
order. -/
theorem issue_sorts_catalog (sha256 : String → String) (hSecret : Scalar)
    (st : ServerState) (db : List (String × List (String × String)))
    (cid pid tid : String) (rs : String → Scalar)
    (rec : List (String × String)) (p : Policy)
    (hrec : lookupStr cid db = some rec) (hne : rec ≠ [])
    (hp : lookupStr pid st.policies = some p) :
    ((createToken sha256 hSecret st db cid pid tid rs).toOption.map (fun r => r.stored.policy)
        = some (sortPolicy p))
    ∧ ((createToken sha256 hSecret st db cid pid tid rs).toOption.map
          (fun r => lookupStr pid r.state'.policies) = some (some (sortPolicy p)))
    ∧ sortPolicy idRenewalPolicy
        = { idRenewalPolicy with
            visibleFields := ["address", "dateOfBirth", "name", "nationalId"],
            hiddenFields := ["bankAccount", "email", "medicalHistory", "phone", "propertyRecords", "taxRecords"] }
    ∧ sortPolicy idRenewalPolicy ≠ idRenewalPolicy := by
  have hok := createToken_ok sha256 hSecret st db cid pid tid rs rec p hrec hne hp
  refine ⟨?_, ?_, by decide, by decide⟩
  · rw [hok]
    rfl
  · rw [hok]
    show some (lookupStr pid (st.policies.map
      (fun e => if e.1 = pid then (e.1, sortPolicy p) else e))) = some (some (sortPolicy p))
    rw [lookup_map_replace st.policies pid p (sortPolicy p) hp]

theorem issue_sorts_catalog_witness :
    (lookupStr "c1" wDb = some wRecord) ∧ wRecord ≠ []
      ∧ (lookupStr "p1" wSt.policies = some wCatPolicy)
      ∧ ((createToken cexSha 5 wSt wDb "c1" "p1" "t1" (fun _ => 3)).toOption.map (fun r => r.stored.policy)
          = some (sortPolicy wCatPolicy)) :=
  ⟨by decide, by decide, by decide,
    (issue_sorts_catalog cexSha 5 wSt wDb "c1" "p1" "t1" (fun _ => 3) wRecord wCatPolicy
      (by decide) (by decide) (by decide)).1⟩
